import Mathlib

/-!
Shallow embedding of the procedural mesh-construction kernel and binary model
serializer of this repository, found in `tools/generate_item_models.py` and
`tools/generate_medkit.py` (the two files carry identical copies of
`create_box`, `create_cylinder`, `merge_meshes` and `create_glb`;
`create_cone` and `create_torus` appear in the first file,
`create_half_cylinder` in the second).

Numeric modelling choices:
* numpy `(n,3)` float arrays become `List (Vec3 α)` over a field `α`; the
  exact rational field `ℚ` instantiates `α` in all concrete evaluations, so
  arithmetic is exact where the source uses IEEE floats.
* The real-valued primitives `np.cos`, `np.sin`, `np.sqrt` and the constant
  `np.pi` are abstracted into a record `Trig α` of functions, so every
  definition stays executable.  Theorems that depend on actual trigonometric
  facts state them as explicit hypotheses (e.g. `sin 0 = 0`, or the value of
  a square root at the one point where it is taken), which the real
  functions satisfy.
* Index arrays (`np.uint32`) become `List ℕ`; the meshes built here keep all
  values far below `2^32`, so no wrap-around is modelled on index
  arithmetic.  The byte serializer does reduce modulo `2^32`.
* `np.vstack` / `np.hstack` raise `ValueError` on an empty list of arrays,
  so `merge_meshes` is `Option`-valued with `none` exactly on the empty
  input list.
-/

namespace MeshGen

/-- One row of a numpy `(n,3)` array: a position, normal or RGB color. -/
structure Vec3 (α : Type) where
  x : α
  y : α
  z : α
deriving DecidableEq

/-- A primitive output: the `(positions, normals, colors, indices)` tuple
returned by every builder. -/
structure Mesh (α : Type) where
  positions : List (Vec3 α)
  normals : List (Vec3 α)
  colors : List (Vec3 α)
  indices : List ℕ
deriving DecidableEq

instance {α : Type} : Inhabited (Mesh α) := ⟨⟨[], [], [], []⟩⟩

/-- The numeric primitives used by the builders: `np.cos`, `np.sin`,
`np.sqrt` and the constant `np.pi`, abstracted as data so that the
development stays computable. -/
structure Trig (α : Type) where
  cos : α → α
  sin : α → α
  sqrt : α → α
  pi : α

variable {α : Type}

/-- Python `create_box(w, h, d, color, origin)`: 24 vertices (6 faces × 4 private
corner copies), 6 axis-aligned face normals, 36 indices from a fixed
6-index-per-face template. -/
def create_box [Field α] (w h d : α) (color : Vec3 α) (origin : Vec3 α) : Mesh α :=
  let ox := origin.x
  let oy := origin.y
  let oz := origin.z
  let hw := w / 2
  let hh := h / 2
  let hd := d / 2
  { positions := [
      ⟨ox - hw, oy - hh, oz + hd⟩, ⟨ox + hw, oy - hh, oz + hd⟩,
      ⟨ox + hw, oy + hh, oz + hd⟩, ⟨ox - hw, oy + hh, oz + hd⟩,
      ⟨ox + hw, oy - hh, oz - hd⟩, ⟨ox - hw, oy - hh, oz - hd⟩,
      ⟨ox - hw, oy + hh, oz - hd⟩, ⟨ox + hw, oy + hh, oz - hd⟩,
      ⟨ox - hw, oy + hh, oz + hd⟩, ⟨ox + hw, oy + hh, oz + hd⟩,
      ⟨ox + hw, oy + hh, oz - hd⟩, ⟨ox - hw, oy + hh, oz - hd⟩,
      ⟨ox - hw, oy - hh, oz - hd⟩, ⟨ox + hw, oy - hh, oz - hd⟩,
      ⟨ox + hw, oy - hh, oz + hd⟩, ⟨ox - hw, oy - hh, oz + hd⟩,
      ⟨ox + hw, oy - hh, oz + hd⟩, ⟨ox + hw, oy - hh, oz - hd⟩,
      ⟨ox + hw, oy + hh, oz - hd⟩, ⟨ox + hw, oy + hh, oz + hd⟩,
      ⟨ox - hw, oy - hh, oz - hd⟩, ⟨ox - hw, oy - hh, oz + hd⟩,
      ⟨ox - hw, oy + hh, oz + hd⟩, ⟨ox - hw, oy + hh, oz - hd⟩],
    normals := [
      ⟨0, 0, 1⟩, ⟨0, 0, 1⟩, ⟨0, 0, 1⟩, ⟨0, 0, 1⟩,
      ⟨0, 0, -1⟩, ⟨0, 0, -1⟩, ⟨0, 0, -1⟩, ⟨0, 0, -1⟩,
      ⟨0, 1, 0⟩, ⟨0, 1, 0⟩, ⟨0, 1, 0⟩, ⟨0, 1, 0⟩,
      ⟨0, -1, 0⟩, ⟨0, -1, 0⟩, ⟨0, -1, 0⟩, ⟨0, -1, 0⟩,
      ⟨1, 0, 0⟩, ⟨1, 0, 0⟩, ⟨1, 0, 0⟩, ⟨1, 0, 0⟩,
      ⟨-1, 0, 0⟩, ⟨-1, 0, 0⟩, ⟨-1, 0, 0⟩, ⟨-1, 0, 0⟩],
    colors := List.replicate 24 color,
    indices := [0, 1, 2, 0, 2, 3,
                4, 5, 6, 4, 6, 7,
                8, 9, 10, 8, 10, 11,
                12, 13, 14, 12, 14, 15,
                16, 17, 18, 16, 18, 19,
                20, 21, 22, 20, 22, 23] }

/-- The angle of loop step `i` out of `n` steps: `2 * np.pi * i / n`
(used by both the cylinder rings and the torus loops). -/
def loop_angle [Field α] (T : Trig α) (n i : ℕ) : α :=
  2 * T.pi * (i : α) / (n : α)

/-- Side-wall vertices of `create_cylinder`: each angular step emits one
bottom-ring vertex and one top-ring vertex. -/
def cylinder_side_positions [Field α] (T : Trig α) (radius top_radius height : α)
    (segments : ℕ) (origin : Vec3 α) : List (Vec3 α) :=
  (List.range segments).flatMap fun i =>
    [⟨origin.x + radius * T.cos (loop_angle T segments i), origin.y,
      origin.z + radius * T.sin (loop_angle T segments i)⟩,
     ⟨origin.x + top_radius * T.cos (loop_angle T segments i), origin.y + height,
      origin.z + top_radius * T.sin (loop_angle T segments i)⟩]

/-- Side-wall normals of `create_cylinder`: both vertices of a step share
the radial outward normal `[cos, 0, sin]`. -/
def cylinder_side_normals [Field α] (T : Trig α) (segments : ℕ) : List (Vec3 α) :=
  (List.range segments).flatMap fun i =>
    [⟨T.cos (loop_angle T segments i), 0, T.sin (loop_angle T segments i)⟩,
     ⟨T.cos (loop_angle T segments i), 0, T.sin (loop_angle T segments i)⟩]

/-- A cap ring of `create_cylinder` (also reused as the cone's base ring):
`segments` vertices at radius `rr` and absolute height `y`. -/
def cylinder_ring_positions [Field α] (T : Trig α) (rr y : α)
    (segments : ℕ) (origin : Vec3 α) : List (Vec3 α) :=
  (List.range segments).map fun i =>
    ⟨origin.x + rr * T.cos (loop_angle T segments i), y,
     origin.z + rr * T.sin (loop_angle T segments i)⟩

/-- Side quad indices of `create_cylinder`; python emits
`[i0, i2, i1, i1, i2, i3]` per step. -/
def cylinder_side_indices (segments : ℕ) : List ℕ :=
  (List.range segments).flatMap fun i =>
    [i * 2, ((i + 1) % segments) * 2, i * 2 + 1,
     i * 2 + 1, ((i + 1) % segments) * 2, ((i + 1) % segments) * 2 + 1]

/-- Top cap fan of `create_cylinder` from center index `c`. -/
def cylinder_top_indices (segments c : ℕ) : List ℕ :=
  (List.range segments).flatMap fun i =>
    [c, c + 1 + i, c + 1 + ((i + 1) % segments)]

/-- Bottom cap fan of `create_cylinder` from center index `c` (reverse
winding relative to the top cap). -/
def cylinder_bottom_indices (segments c : ℕ) : List ℕ :=
  (List.range segments).flatMap fun i =>
    [c, c + 1 + ((i + 1) % segments), c + 1 + i]

/-- Python `create_cylinder(radius, height, segments, color, origin, top_radius)`;
`top_radius=None` (here `none`) defaults to `radius`.  The cap fan centers
are taken, as in the source, as `len(positions)` at the moment each center
vertex is appended. -/
def create_cylinder [Field α] (T : Trig α) (radius height : α) (segments : ℕ)
    (color origin : Vec3 α) (topRadiusOpt : Option α) : Mesh α :=
  let top_radius := topRadiusOpt.getD radius
  let side_pos := cylinder_side_positions T radius top_radius height segments origin
  let top_ring := cylinder_ring_positions T top_radius (origin.y + height) segments origin
  let bot_ring := cylinder_ring_positions T radius origin.y segments origin
  let top_center_idx := side_pos.length
  let bot_center_idx := side_pos.length + 1 + top_ring.length
  { positions := side_pos ++ (⟨origin.x, origin.y + height, origin.z⟩ :: top_ring)
      ++ (⟨origin.x, origin.y, origin.z⟩ :: bot_ring),
    normals := cylinder_side_normals T segments
      ++ (⟨0, 1, 0⟩ :: List.replicate segments ⟨0, 1, 0⟩)
      ++ (⟨0, -1, 0⟩ :: List.replicate segments ⟨0, -1, 0⟩),
    colors := List.replicate (2 * segments) color
      ++ (color :: List.replicate segments color)
      ++ (color :: List.replicate segments color),
    indices := cylinder_side_indices segments
      ++ cylinder_top_indices segments top_center_idx
      ++ cylinder_bottom_indices segments bot_center_idx }

/-- Side fan of `create_cone`: apex index is the literal `0`. -/
def cone_side_indices (segments : ℕ) : List ℕ :=
  (List.range segments).flatMap fun i =>
    [0, 1 + i, 1 + ((i + 1) % segments)]

/-- Bottom cap fan of `create_cone` from center index `bc`
(`bot_start = bc + 1` in the source). -/
def cone_bottom_indices (segments bc : ℕ) : List ℕ :=
  (List.range segments).flatMap fun i =>
    [bc, (bc + 1) + ((i + 1) % segments), (bc + 1) + i]

/-- Python `create_cone(radius, height, segments, color, origin)`.  The source
builds the base ring twice with the identical loop (once under the slanted
side normals, once under the flat `-Y` cap normals), so `base_ring` appears
twice in `positions`.  Note the apex normal is `[0, 1/normal_len, 0]`,
exactly as in the source. -/
def create_cone [Field α] (T : Trig α) (radius height : α) (segments : ℕ)
    (color origin : Vec3 α) : Mesh α :=
  let slope := radius / height
  let normal_len := T.sqrt (1 + slope * slope)
  let base_ring := cylinder_ring_positions T radius origin.y segments origin
  let bot_center_idx := 1 + base_ring.length
  { positions := ⟨origin.x, origin.y + height, origin.z⟩ ::
      (base_ring ++ ⟨origin.x, origin.y, origin.z⟩ :: base_ring),
    normals := ⟨0, 1 / normal_len, 0⟩ ::
      (((List.range segments).map fun i =>
          ⟨T.cos (loop_angle T segments i) / normal_len, slope / normal_len,
           T.sin (loop_angle T segments i) / normal_len⟩)
        ++ ⟨0, -1, 0⟩ :: List.replicate segments ⟨0, -1, 0⟩),
    colors := color ::
      (List.replicate segments color ++ color :: List.replicate segments color),
    indices := cone_side_indices segments ++ cone_bottom_indices segments bot_center_idx }

/-- Torus cell indices; python emits
`[curr, next_i, next_j, next_i, next_ij, next_j]` per `(i, j)` cell. -/
def torus_grid_indices (segments rings : ℕ) : List ℕ :=
  (List.range rings).flatMap fun i => (List.range segments).flatMap fun j =>
    [i * segments + j, ((i + 1) % rings) * segments + j,
     i * segments + ((j + 1) % segments),
     ((i + 1) % rings) * segments + j,
     ((i + 1) % rings) * segments + ((j + 1) % segments),
     i * segments + ((j + 1) % segments)]

/-- Python `create_torus(outer_r, inner_r, segments, rings, color, origin)`:
major angle `theta = 2π i / rings`, minor angle `phi = 2π j / segments`,
tube center at `(outer_r - inner_r)` from the origin. -/
def create_torus [Field α] (T : Trig α) (outer_r inner_r : α) (segments rings : ℕ)
    (color origin : Vec3 α) : Mesh α :=
  { positions := (List.range rings).flatMap fun i =>
      (List.range segments).map fun j =>
        ⟨(origin.x + (outer_r - inner_r) * T.cos (loop_angle T rings i))
            + inner_r * T.cos (loop_angle T segments j) * T.cos (loop_angle T rings i),
         origin.y + inner_r * T.sin (loop_angle T segments j),
         (origin.z + (outer_r - inner_r) * T.sin (loop_angle T rings i))
            + inner_r * T.cos (loop_angle T segments j) * T.sin (loop_angle T rings i)⟩,
    normals := (List.range rings).flatMap fun i =>
      (List.range segments).map fun j =>
        ⟨T.cos (loop_angle T segments j) * T.cos (loop_angle T rings i),
         T.sin (loop_angle T segments j),
         T.cos (loop_angle T segments j) * T.sin (loop_angle T rings i)⟩,
    colors := (List.range rings).flatMap fun _ => List.replicate segments color,
    indices := torus_grid_indices segments rings }

/-- The `axis` keyword of `create_half_cylinder` (`'x'` or `'z'`). -/
inductive Axis where
  | x : Axis
  | z : Axis
deriving DecidableEq

/-- The half-cylinder angle of step `i` out of `half` steps:
`-np.pi/2 + np.pi * i / half_segments`. -/
def half_angle [Field α] (T : Trig α) (half i : ℕ) : α :=
  -(T.pi / 2) + T.pi * (i : α) / (half : α)

/-- Strip quad indices of `create_half_cylinder` (no modulo wrap: the strip
is open); python emits `[i0, i2, i1, i1, i2, i3]` per step. -/
def half_cylinder_strip_indices (half : ℕ) : List ℕ :=
  (List.range half).flatMap fun i =>
    [i * 2, (i + 1) * 2, i * 2 + 1,
     i * 2 + 1, (i + 1) * 2, (i + 1) * 2 + 1]

/-- Body of `create_half_cylinder`, parameterized directly by
`half_segments = segments // 2`.  Exactly as in the source: on `axis='x'`
the positions use only `sin(angle)` in the `z` coordinate (the computed
`cos_a` is never used) and the normals are `[0, 0, sin]`; on `axis='z'`
only `cos(angle)` in the `x` coordinate with normals `[cos, 0, 0]`.
No cap geometry exists in the source. -/
def half_cylinder_core [Field α] (T : Trig α) (radius height : α) (half : ℕ)
    (color origin : Vec3 α) (axis : Axis) : Mesh α :=
  { positions := (List.range (half + 1)).flatMap fun i =>
      match axis with
      | Axis.x =>
          [⟨origin.x, origin.y, origin.z + radius * T.sin (half_angle T half i)⟩,
           ⟨origin.x, origin.y + height, origin.z + radius * T.sin (half_angle T half i)⟩]
      | Axis.z =>
          [⟨origin.x + radius * T.cos (half_angle T half i), origin.y, origin.z⟩,
           ⟨origin.x + radius * T.cos (half_angle T half i), origin.y + height, origin.z⟩],
    normals := (List.range (half + 1)).flatMap fun i =>
      match axis with
      | Axis.x =>
          [⟨0, 0, T.sin (half_angle T half i)⟩, ⟨0, 0, T.sin (half_angle T half i)⟩]
      | Axis.z =>
          [⟨T.cos (half_angle T half i), 0, 0⟩, ⟨T.cos (half_angle T half i), 0, 0⟩],
    colors := (List.range (half + 1)).flatMap fun _ => [color, color],
    indices := half_cylinder_strip_indices half }

/-- Python `create_half_cylinder(radius, height, segments, color, origin, axis)`:
the source sets `half_segments = segments // 2` and never reads `segments`
again. -/
def create_half_cylinder [Field α] (T : Trig α) (radius height : α) (segments : ℕ)
    (color origin : Vec3 α) (axis : Axis) : Mesh α :=
  half_cylinder_core T radius height (segments / 2) color origin axis

/-- Vertex offset assigned to input `k` of `merge_meshes`: the running sum
of the vertex counts of the inputs before it. -/
def offsetAt (ms : List (Mesh α)) (k : ℕ) : ℕ :=
  ((ms.take k).map fun m => m.positions.length).sum

/-- The index-merging loop of `merge_meshes`: each input's indices are
shifted by the accumulated `index_offset`, which then grows by
`len(positions)` of that input. -/
def shiftedIndices : List (Mesh α) → ℕ → List ℕ
  | [], _ => []
  | m :: rest, off =>
      (m.indices.map fun j => j + off) ++ shiftedIndices rest (off + m.positions.length)

/-- Python `merge_meshes(meshes)`.  On the empty list, `np.vstack([])` (and
`np.hstack([])`) raise `ValueError: need at least one array to
concatenate`, which we model as `none`; on a non-empty list the vertex
arrays are plain concatenations and the index arrays are concatenated with
running vertex-count offsets. -/
def merge_meshes (ms : List (Mesh α)) : Option (Mesh α) :=
  if ms.isEmpty then none
  else some
    { positions := (ms.map Mesh.positions).flatten,
      normals := (ms.map Mesh.normals).flatten,
      colors := (ms.map Mesh.colors).flatten,
      indices := shiftedIndices ms 0 }

/-- The primitive-output invariant of the spec: triangle-aligned index
count, all indices in range, and parallel vertex attribute arrays of one
common length. -/
def wfMesh (m : Mesh α) : Prop :=
  m.indices.length % 3 = 0
  ∧ (∀ i ∈ m.indices, i < m.positions.length)
  ∧ m.normals.length = m.positions.length
  ∧ m.colors.length = m.positions.length

instance (m : Mesh α) : Decidable (wfMesh m) := by
  unfold wfMesh; infer_instance

/-- Little-endian byte serialization of one `np.uint32` index value. -/
def encU32 (n : ℕ) : List ℕ :=
  [n % 2 ^ 32 % 2 ^ 8, n % 2 ^ 32 / 2 ^ 8 % 2 ^ 8,
   n % 2 ^ 32 / 2 ^ 16 % 2 ^ 8, n % 2 ^ 32 / 2 ^ 24 % 2 ^ 8]

/-- Row-major bytes of one `(3,)` float32 row, given the 4-byte float
encoder `encf`. -/
def vec3Bytes (encf : α → List ℕ) (v : Vec3 α) : List ℕ :=
  encf v.x ++ encf v.y ++ encf v.z

/-- Bytes of `positions.tobytes()` (row-major, densely packed). -/
def mesh_pos_bytes (encf : α → List ℕ) (m : Mesh α) : List ℕ :=
  m.positions.flatMap (vec3Bytes encf)

/-- Bytes of `normals.tobytes()`. -/
def mesh_norm_bytes (encf : α → List ℕ) (m : Mesh α) : List ℕ :=
  m.normals.flatMap (vec3Bytes encf)

/-- Bytes of `colors.tobytes()`. -/
def mesh_color_bytes (encf : α → List ℕ) (m : Mesh α) : List ℕ :=
  m.colors.flatMap (vec3Bytes encf)

/-- Bytes of `indices.tobytes()` with dtype `uint32`, little endian. -/
def mesh_index_bytes (m : Mesh α) : List ℕ :=
  m.indices.flatMap encU32

/-- Python `pad_to_4(data)`: append `(4 - len % 4) % 4` zero bytes. -/
def pad_to_4 (data : List ℕ) : List ℕ :=
  data ++ List.replicate ((4 - data.length % 4) % 4) 0

/-- One glTF buffer view: the byte offset into the blob and the *unpadded*
byte length, as recorded by `create_glb`. -/
structure BufView where
  byteOffset : ℕ
  byteLength : ℕ
deriving DecidableEq

/-- Componentwise minimum of two rows (one reduction step of
`positions.min(axis=0)`). -/
def vminOp [LinearOrder α] (a b : Vec3 α) : Vec3 α :=
  ⟨min a.x b.x, min a.y b.y, min a.z b.z⟩

/-- Componentwise maximum of two rows. -/
def vmaxOp [LinearOrder α] (a b : Vec3 α) : Vec3 α :=
  ⟨max a.x b.x, max a.y b.y, max a.z b.z⟩

/-- Model of `positions.min(axis=0)`: numpy raises on an empty array, hence
`Option`. -/
def vecMin [LinearOrder α] : List (Vec3 α) → Option (Vec3 α)
  | [] => none
  | v :: vs => some (vs.foldl vminOp v)

/-- Model of `positions.max(axis=0)`. -/
def vecMax [LinearOrder α] : List (Vec3 α) → Option (Vec3 α)
  | [] => none
  | v :: vs => some (vs.foldl vmaxOp v)

/-- The observable output of `create_glb`: the binary blob, the four buffer
views, the accessor counts and the position accessor's min/max, plus the
returned triangle count.  (The fixed scene-graph wrapper and the GLB header
are emitted by the `pygltflib` dependency and carry no data of their
own.) -/
structure GLBOut (α : Type) where
  blob : List ℕ
  pos_view : BufView
  norm_view : BufView
  color_view : BufView
  index_view : BufView
  pos_count : ℕ
  norm_count : ℕ
  color_count : ℕ
  index_count : ℕ
  pos_min : Option (Vec3 α)
  pos_max : Option (Vec3 α)
  tri_count : ℕ
deriving DecidableEq

/-- Python `create_glb(positions, normals, colors, indices, path)` without the
final storage write: convert each array to fixed-width bytes, pad each to
a 4-byte boundary, concatenate in the fixed order, and record the buffer
views (offset into the blob, unpadded length) and the position accessor's
componentwise min/max.  `encf` is the 4-byte little-endian float32 encoder
(kept abstract; its output length is hypothesized where needed). -/
def create_glb [LinearOrder α] (encf : α → List ℕ) (m : Mesh α) : GLBOut α :=
  let pos_bytes := mesh_pos_bytes encf m
  let norm_bytes := mesh_norm_bytes encf m
  let color_bytes := mesh_color_bytes encf m
  let index_bytes := mesh_index_bytes m
  let pos_padded := pad_to_4 pos_bytes
  let norm_padded := pad_to_4 norm_bytes
  let color_padded := pad_to_4 color_bytes
  let index_padded := pad_to_4 index_bytes
  { blob := pos_padded ++ norm_padded ++ color_padded ++ index_padded,
    pos_view := ⟨0, pos_bytes.length⟩,
    norm_view := ⟨pos_padded.length, norm_bytes.length⟩,
    color_view := ⟨pos_padded.length + norm_padded.length, color_bytes.length⟩,
    index_view := ⟨pos_padded.length + norm_padded.length + color_padded.length,
                   index_bytes.length⟩,
    pos_count := m.positions.length,
    norm_count := m.normals.length,
    color_count := m.colors.length,
    index_count := m.indices.length,
    pos_min := vecMin m.positions,
    pos_max := vecMax m.positions,
    tri_count := m.indices.length / 3 }

/-- A `Trig ℚ` instantiation for concrete witnesses; its `sin` is
constantly `0` (so `sin 0 = 0` holds) and `cos` constantly `1` (so
`cos² + sin² = 1` holds). -/
def trigStub : Trig ℚ :=
  { cos := fun _ => 1, sin := fun _ => 0, sqrt := fun _ => 0, pi := 0 }

/-- A `Trig ℚ` instantiation whose `sqrt` returns `5/4`, the exact value of
`np.sqrt(25/16)` — the only point where `create_cone(3, 4, _)` samples the
square root. -/
def trigConeStub : Trig ℚ :=
  { cos := fun _ => 1, sin := fun _ => 0, sqrt := fun _ => 5 / 4, pi := 0 }

/-- A small well-formed primitive output used by witnesses. -/
def meshA : Mesh ℚ :=
  { positions := [⟨0, 0, 0⟩, ⟨1, 0, 0⟩, ⟨0, 1, 0⟩],
    normals := [⟨0, 0, 1⟩, ⟨0, 0, 1⟩, ⟨0, 0, 1⟩],
    colors := [⟨1, 0, 0⟩, ⟨1, 0, 0⟩, ⟨1, 0, 0⟩],
    indices := [0, 1, 2] }

/-- A second small well-formed primitive output used by witnesses. -/
def meshB : Mesh ℚ :=
  { positions := [⟨0, 0, 1⟩, ⟨1, 0, 1⟩],
    normals := [⟨0, 1, 0⟩, ⟨0, 1, 0⟩],
    colors := [⟨0, 1, 0⟩, ⟨0, 1, 0⟩],
    indices := [0, 1, 1] }

/-- The merge of `meshA` and `meshB`, spelled out. -/
def mergedAB : Mesh ℚ :=
  { positions := [⟨0, 0, 0⟩, ⟨1, 0, 0⟩, ⟨0, 1, 0⟩, ⟨0, 0, 1⟩, ⟨1, 0, 1⟩],
    normals := [⟨0, 0, 1⟩, ⟨0, 0, 1⟩, ⟨0, 0, 1⟩, ⟨0, 1, 0⟩, ⟨0, 1, 0⟩],
    colors := [⟨1, 0, 0⟩, ⟨1, 0, 0⟩, ⟨1, 0, 0⟩, ⟨0, 1, 0⟩, ⟨0, 1, 0⟩],
    indices := [0, 1, 2, 3, 4, 4] }

/-- A trivial stand-in float32 encoder for witnesses (4 zero bytes per
scalar). -/
def encZero : ℚ → List ℕ := fun _ => [0, 0, 0, 0]

/-! ### Generic counting helpers -/

lemma length_flatMap_const {β γ : Type} {l : List β} {f : β → List γ} (c : ℕ)
    (hf : ∀ b ∈ l, (f b).length = c) : (l.flatMap f).length = c * l.length := by
  induction l with
  | nil => simp
  | cons a l ih =>
    simp only [List.flatMap_cons, List.length_append, List.length_cons,
      hf a (List.mem_cons_self a l), ih fun b hb => hf b (List.mem_cons_of_mem a hb)]
    ring

lemma sum_mod_three {l : List ℕ} (h : ∀ x ∈ l, x % 3 = 0) : l.sum % 3 = 0 := by
  induction l with
  | nil => rfl
  | cons a l ih =>
    have ha := h a (List.mem_cons_self a l)
    have hl := ih fun x hx => h x (List.mem_cons_of_mem a hx)
    simp only [List.sum_cons]
    omega

lemma grid_lt {i j R s : ℕ} (hi : i < R) (hj : j < s) : i * s + j < R * s :=
  calc i * s + j < i * s + s := by omega
    _ = (i + 1) * s := by ring
    _ ≤ R * s := Nat.mul_le_mul_right s hi

/-! ### `merge_meshes` helpers -/

lemma offsetAt_zero (ms : List (Mesh α)) : offsetAt ms 0 = 0 := by
  simp [offsetAt]

lemma offsetAt_cons_succ (m : Mesh α) (ms : List (Mesh α)) (k : ℕ) :
    offsetAt (m :: ms) (k + 1) = m.positions.length + offsetAt ms k := by
  simp [offsetAt, List.take_succ_cons]

lemma shiftedIndices_length (ms : List (Mesh α)) (off : ℕ) :
    (shiftedIndices ms off).length = (ms.map fun m => m.indices.length).sum := by
  induction ms generalizing off with
  | nil => rfl
  | cons m rest ih => simp [shiftedIndices, ih]

lemma shiftedIndices_eq (ms : List (Mesh α)) (off : ℕ) :
    shiftedIndices ms off = (List.range ms.length).flatMap fun k =>
      (ms.getD k default).indices.map fun j => j + (off + offsetAt ms k) := by
  induction ms generalizing off with
  | nil => simp [shiftedIndices]
  | cons m rest ih =>
    rw [shiftedIndices, List.length_cons, List.range_succ_eq_map, List.flatMap_cons,
      List.flatMap_map, ih (off + m.positions.length)]
    congr 1
    simp only [List.getD_cons_succ, offsetAt_cons_succ, add_assoc]

lemma shiftedIndices_lt (ms : List (Mesh α)) (off : ℕ)
    (h : ∀ m ∈ ms, ∀ i ∈ m.indices, i < m.positions.length) :
    ∀ v ∈ shiftedIndices ms off, v < off + (ms.map fun m => m.positions.length).sum := by
  induction ms generalizing off with
  | nil => simp [shiftedIndices]
  | cons m rest ih =>
    intro v hv
    rw [shiftedIndices, List.mem_append] at hv
    rcases hv with hv | hv
    · obtain ⟨j, hj, rfl⟩ := List.mem_map.1 hv
      have hjlt := h m (List.mem_cons_self m rest) j hj
      simp only [List.map_cons, List.sum_cons]
      omega
    · have := ih (off + m.positions.length)
        (fun m' hm' => h m' (List.mem_cons_of_mem m hm')) v hv
      simp only [List.map_cons, List.sum_cons] at this ⊢
      omega

lemma shiftedIndices_triangle_block (ms : List (Mesh α)) (off t : ℕ)
    (hwf : ∀ m ∈ ms, m.indices.length % 3 = 0 ∧ ∀ i ∈ m.indices, i < m.positions.length)
    (ht : 3 * t + 2 < (shiftedIndices ms off).length) :
    ∃ k, k < ms.length ∧ ∀ d, d < 3 →
      ∃ v, (shiftedIndices ms off)[3 * t + d]? = some v ∧
        off + offsetAt ms k ≤ v ∧
        v < off + offsetAt ms k + (ms.getD k default).positions.length := by
  induction ms generalizing off t with
  | nil => simp [shiftedIndices] at ht
  | cons m rest ih =>
    obtain ⟨hm3, hmlt⟩ := hwf m (List.mem_cons_self m rest)
    have hwf' := fun m' hm' => hwf m' (List.mem_cons_of_mem m hm')
    have hlenA : (m.indices.map fun j => j + off).length = m.indices.length :=
      List.length_map ..
    by_cases hcase : 3 * t + 2 < m.indices.length
    · refine ⟨0, Nat.succ_pos _, fun d hd => ?_⟩
      have hlt : 3 * t + d < m.indices.length := by omega
      have h1 : (shiftedIndices (m :: rest) off)[3 * t + d]?
          = (m.indices.map fun j => j + off)[3 * t + d]? := by
        rw [shiftedIndices]
        exact List.getElem?_append_left (by omega)
      refine ⟨m.indices[3 * t + d] + off, ?_, ?_, ?_⟩
      · rw [h1, List.getElem?_map, List.getElem?_eq_getElem hlt]
        rfl
      · simp [offsetAt_zero]
      · have := hmlt m.indices[3 * t + d] (List.getElem_mem hlt)
        simp only [offsetAt_zero, List.getD_cons_zero]
        omega
    · have hL3 : m.indices.length ≤ 3 * t := by omega
      have hlen : (shiftedIndices (m :: rest) off).length
          = m.indices.length + (shiftedIndices rest (off + m.positions.length)).length := by
        rw [shiftedIndices, List.length_append, hlenA]
      have ht' : 3 * (t - m.indices.length / 3) + 2
          < (shiftedIndices rest (off + m.positions.length)).length := by omega
      obtain ⟨k, hk, hblock⟩ := ih (off + m.positions.length) (t - m.indices.length / 3) hwf' ht'
      refine ⟨k + 1, by simpa using hk, fun d hd => ?_⟩
      obtain ⟨v, hv, hv1, hv2⟩ := hblock d hd
      refine ⟨v, ?_, ?_, ?_⟩
      · rw [shiftedIndices, List.getElem?_append_right (by omega),
          show 3 * t + d - (m.indices.map fun j => j + off).length
            = 3 * (t - m.indices.length / 3) + d by omega]
        exact hv
      · rw [offsetAt_cons_succ]
        omega
      · rw [offsetAt_cons_succ, List.getD_cons_succ]
        omega

/-- Merging preserves: `merge_meshes` preserves the primitive-output invariant (used by the
invariant theorem below). -/
lemma merge_wf (ms : List (Mesh α)) (M : Mesh α)
    (hwf : ∀ m ∈ ms, wfMesh m) (hM : merge_meshes ms = some M) : wfMesh M := by
  unfold merge_meshes at hM
  by_cases hne : ms.isEmpty
  · simp [hne] at hM
  · simp only [hne, Bool.false_eq_true, if_false, Option.some.injEq] at hM
    subst hM
    refine ⟨?_, ?_, ?_, ?_⟩
    · rw [shiftedIndices_length]
      exact sum_mod_three fun x hx => by
        obtain ⟨m, hm, rfl⟩ := List.mem_map.1 hx
        exact (hwf m hm).1
    · intro i hi
      have := shiftedIndices_lt ms 0 (fun m hm => (hwf m hm).2.1) i hi
      simpa [List.length_flatten, List.map_map, Function.comp] using this
    · simp only [List.length_flatten, List.map_map]
      congr 1
      exact List.map_congr_left fun m hm => (hwf m hm).2.2.1
    · simp only [List.length_flatten, List.map_map]
      congr 1
      exact List.map_congr_left fun m hm => (hwf m hm).2.2.2

/-! ### Builder component lengths and index bounds -/

lemma cylinder_side_positions_length [Field α] (T : Trig α) (radius top_radius height : α)
    (segments : ℕ) (origin : Vec3 α) :
    (cylinder_side_positions T radius top_radius height segments origin).length
      = 2 * segments := by
  unfold cylinder_side_positions
  refine (length_flatMap_const 2 ?_).trans ?_
  · intro b hb
    rfl
  · simp

lemma cylinder_side_normals_length [Field α] (T : Trig α) (segments : ℕ) :
    (cylinder_side_normals T segments).length = 2 * segments := by
  unfold cylinder_side_normals
  refine (length_flatMap_const 2 ?_).trans ?_
  · intro b hb
    rfl
  · simp

lemma cylinder_ring_positions_length [Field α] (T : Trig α) (rr y : α)
    (segments : ℕ) (origin : Vec3 α) :
    (cylinder_ring_positions T rr y segments origin).length = segments := by
  simp [cylinder_ring_positions]

lemma cylinder_side_indices_length (segments : ℕ) :
    (cylinder_side_indices segments).length = 6 * segments := by
  unfold cylinder_side_indices
  refine (length_flatMap_const 6 ?_).trans ?_
  · intro b hb
    rfl
  · simp

lemma cylinder_top_indices_length (segments c : ℕ) :
    (cylinder_top_indices segments c).length = 3 * segments := by
  unfold cylinder_top_indices
  refine (length_flatMap_const 3 ?_).trans ?_
  · intro b hb
    rfl
  · simp

lemma cylinder_bottom_indices_length (segments c : ℕ) :
    (cylinder_bottom_indices segments c).length = 3 * segments := by
  unfold cylinder_bottom_indices
  refine (length_flatMap_const 3 ?_).trans ?_
  · intro b hb
    rfl
  · simp

lemma cylinder_side_indices_lt (segments : ℕ) (hs : 0 < segments) :
    ∀ v ∈ cylinder_side_indices segments, v < 2 * segments := by
  intro v hv
  unfold cylinder_side_indices at hv
  rw [List.mem_flatMap] at hv
  obtain ⟨i, hi, hv⟩ := hv
  rw [List.mem_range] at hi
  have hmod : (i + 1) % segments < segments := Nat.mod_lt _ hs
  set r := (i + 1) % segments with hr
  simp only [List.mem_cons, List.not_mem_nil, or_false] at hv
  rcases hv with rfl | rfl | rfl | rfl | rfl | rfl <;> omega

lemma cylinder_top_indices_lt (segments c : ℕ) (hs : 0 < segments) :
    ∀ v ∈ cylinder_top_indices segments c, v < c + segments + 1 := by
  intro v hv
  unfold cylinder_top_indices at hv
  rw [List.mem_flatMap] at hv
  obtain ⟨i, hi, hv⟩ := hv
  rw [List.mem_range] at hi
  have hmod : (i + 1) % segments < segments := Nat.mod_lt _ hs
  set r := (i + 1) % segments with hr
  simp only [List.mem_cons, List.not_mem_nil, or_false] at hv
  rcases hv with rfl | rfl | rfl <;> omega

lemma cylinder_bottom_indices_lt (segments c : ℕ) (hs : 0 < segments) :
    ∀ v ∈ cylinder_bottom_indices segments c, v < c + segments + 1 := by
  intro v hv
  unfold cylinder_bottom_indices at hv
  rw [List.mem_flatMap] at hv
  obtain ⟨i, hi, hv⟩ := hv
  rw [List.mem_range] at hi
  have hmod : (i + 1) % segments < segments := Nat.mod_lt _ hs
  set r := (i + 1) % segments with hr
  simp only [List.mem_cons, List.not_mem_nil, or_false] at hv
  rcases hv with rfl | rfl | rfl <;> omega

lemma cone_side_indices_length (segments : ℕ) :
    (cone_side_indices segments).length = 3 * segments := by
  unfold cone_side_indices
  refine (length_flatMap_const 3 ?_).trans ?_
  · intro b hb
    rfl
  · simp

lemma cone_bottom_indices_length (segments bc : ℕ) :
    (cone_bottom_indices segments bc).length = 3 * segments := by
  unfold cone_bottom_indices
  refine (length_flatMap_const 3 ?_).trans ?_
  · intro b hb
    rfl
  · simp

lemma cone_side_indices_lt (segments : ℕ) (hs : 0 < segments) :
    ∀ v ∈ cone_side_indices segments, v < segments + 1 := by
  intro v hv
  unfold cone_side_indices at hv
  rw [List.mem_flatMap] at hv
  obtain ⟨i, hi, hv⟩ := hv
  rw [List.mem_range] at hi
  have hmod : (i + 1) % segments < segments := Nat.mod_lt _ hs
  set r := (i + 1) % segments with hr
  simp only [List.mem_cons, List.not_mem_nil, or_false] at hv
  rcases hv with rfl | rfl | rfl <;> omega

lemma cone_bottom_indices_lt (segments bc : ℕ) (hs : 0 < segments) :
    ∀ v ∈ cone_bottom_indices segments bc, v < bc + segments + 1 := by
  intro v hv
  unfold cone_bottom_indices at hv
  rw [List.mem_flatMap] at hv
  obtain ⟨i, hi, hv⟩ := hv
  rw [List.mem_range] at hi
  have hmod : (i + 1) % segments < segments := Nat.mod_lt _ hs
  set r := (i + 1) % segments with hr
  simp only [List.mem_cons, List.not_mem_nil, or_false] at hv
  rcases hv with rfl | rfl | rfl <;> omega

lemma half_cylinder_strip_indices_length (half : ℕ) :
    (half_cylinder_strip_indices half).length = 6 * half := by
  unfold half_cylinder_strip_indices
  refine (length_flatMap_const 6 ?_).trans ?_
  · intro b hb
    rfl
  · simp

lemma half_cylinder_strip_indices_lt (half : ℕ) :
    ∀ v ∈ half_cylinder_strip_indices half, v < 2 * (half + 1) := by
  intro v hv
  unfold half_cylinder_strip_indices at hv
  rw [List.mem_flatMap] at hv
  obtain ⟨i, hi, hv⟩ := hv
  rw [List.mem_range] at hi
  simp only [List.mem_cons, List.not_mem_nil, or_false] at hv
  rcases hv with rfl | rfl | rfl | rfl | rfl | rfl <;> omega

lemma torus_grid_indices_length (segments rings : ℕ) :
    (torus_grid_indices segments rings).length = 6 * (rings * segments) := by
  unfold torus_grid_indices
  refine (length_flatMap_const (6 * segments) ?_).trans ?_
  · intro b hb
    refine (length_flatMap_const 6 ?_).trans ?_
    · intro b' hb'
      rfl
    · simp
  · simp only [List.length_range]
    ring

lemma torus_grid_indices_lt (segments rings : ℕ) (hs : 0 < segments) (hr : 0 < rings) :
    ∀ v ∈ torus_grid_indices segments rings, v < rings * segments := by
  intro v hv
  unfold torus_grid_indices at hv
  rw [List.mem_flatMap] at hv
  obtain ⟨i, hi, hv⟩ := hv
  rw [List.mem_flatMap] at hv
  obtain ⟨j, hj, hv⟩ := hv
  rw [List.mem_range] at hi
  rw [List.mem_range] at hj
  have hmodr : (i + 1) % rings < rings := Nat.mod_lt _ hr
  have hmods : (j + 1) % segments < segments := Nat.mod_lt _ hs
  set a := (i + 1) % rings with ha
  set b := (j + 1) % segments with hb
  simp only [List.mem_cons, List.not_mem_nil, or_false] at hv
  rcases hv with rfl | rfl | rfl | rfl | rfl | rfl
  · exact grid_lt hi hj
  · exact grid_lt hmodr hj
  · exact grid_lt hi hmods
  · exact grid_lt hmodr hj
  · exact grid_lt hmodr hmods
  · exact grid_lt hi hmods

/-! ### Whole-builder lengths and well-formedness -/

lemma wf_create_box [Field α] (w h d : α) (color origin : Vec3 α) :
    wfMesh (create_box w h d color origin) := by
  refine ⟨?_, ?_, ?_, ?_⟩
  · show (36 : ℕ) % 3 = 0
    decide
  · show ∀ i ∈ [0, 1, 2, 0, 2, 3, 4, 5, 6, 4, 6, 7, 8, 9, 10, 8, 10, 11,
      12, 13, 14, 12, 14, 15, 16, 17, 18, 16, 18, 19, 20, 21, 22, 20, 22, 23], i < 24
    decide
  · show (24 : ℕ) = 24
    rfl
  · show (24 : ℕ) = 24
    rfl

lemma create_cylinder_positions_length [Field α] (T : Trig α) (radius height : α)
    (segments : ℕ) (color origin : Vec3 α) (topRadiusOpt : Option α) :
    (create_cylinder T radius height segments color origin topRadiusOpt).positions.length
      = 4 * segments + 2 := by
  simp only [create_cylinder, List.length_append, List.length_cons,
    cylinder_side_positions_length, cylinder_ring_positions_length]
  omega

lemma create_cylinder_normals_length [Field α] (T : Trig α) (radius height : α)
    (segments : ℕ) (color origin : Vec3 α) (topRadiusOpt : Option α) :
    (create_cylinder T radius height segments color origin topRadiusOpt).normals.length
      = 4 * segments + 2 := by
  simp only [create_cylinder, List.length_append, List.length_cons,
    cylinder_side_normals_length, List.length_replicate]
  omega

lemma create_cylinder_colors_length [Field α] (T : Trig α) (radius height : α)
    (segments : ℕ) (color origin : Vec3 α) (topRadiusOpt : Option α) :
    (create_cylinder T radius height segments color origin topRadiusOpt).colors.length
      = 4 * segments + 2 := by
  simp only [create_cylinder, List.length_append, List.length_cons, List.length_replicate]
  omega

lemma create_cylinder_indices_length [Field α] (T : Trig α) (radius height : α)
    (segments : ℕ) (color origin : Vec3 α) (topRadiusOpt : Option α) :
    (create_cylinder T radius height segments color origin topRadiusOpt).indices.length
      = 12 * segments := by
  simp only [create_cylinder, List.length_append, cylinder_side_indices_length,
    cylinder_top_indices_length, cylinder_bottom_indices_length]
  omega

lemma create_cylinder_indices_lt [Field α] (T : Trig α) (radius height : α)
    (segments : ℕ) (color origin : Vec3 α) (topRadiusOpt : Option α) (hs : 0 < segments) :
    ∀ v ∈ (create_cylinder T radius height segments color origin topRadiusOpt).indices,
      v < (create_cylinder T radius height segments color origin topRadiusOpt).positions.length := by
  intro v hv
  rw [create_cylinder_positions_length]
  simp only [create_cylinder, List.mem_append, cylinder_side_positions_length,
    cylinder_ring_positions_length] at hv
  rcases hv with (hv | hv) | hv
  · have := cylinder_side_indices_lt segments hs v hv
    omega
  · have := cylinder_top_indices_lt segments (2 * segments) hs v hv
    omega
  · have := cylinder_bottom_indices_lt segments (2 * segments + 1 + segments) hs v hv
    omega

lemma wf_create_cylinder [Field α] (T : Trig α) (radius height : α)
    (segments : ℕ) (color origin : Vec3 α) (topRadiusOpt : Option α) (hs : 0 < segments) :
    wfMesh (create_cylinder T radius height segments color origin topRadiusOpt) := by
  refine ⟨?_, create_cylinder_indices_lt T radius height segments color origin topRadiusOpt hs,
    ?_, ?_⟩
  · rw [create_cylinder_indices_length]
    omega
  · rw [create_cylinder_normals_length, create_cylinder_positions_length]
  · rw [create_cylinder_colors_length, create_cylinder_positions_length]

lemma create_cone_positions_length [Field α] (T : Trig α) (radius height : α)
    (segments : ℕ) (color origin : Vec3 α) :
    (create_cone T radius height segments color origin).positions.length
      = 2 * segments + 2 := by
  simp only [create_cone, List.length_cons, List.length_append,
    cylinder_ring_positions_length]
  omega

lemma create_cone_normals_length [Field α] (T : Trig α) (radius height : α)
    (segments : ℕ) (color origin : Vec3 α) :
    (create_cone T radius height segments color origin).normals.length
      = 2 * segments + 2 := by
  simp only [create_cone, List.length_cons, List.length_append, List.length_map,
    List.length_range, List.length_replicate]
  omega

lemma create_cone_colors_length [Field α] (T : Trig α) (radius height : α)
    (segments : ℕ) (color origin : Vec3 α) :
    (create_cone T radius height segments color origin).colors.length
      = 2 * segments + 2 := by
  simp only [create_cone, List.length_cons, List.length_append, List.length_replicate]
  omega

lemma create_cone_indices_length [Field α] (T : Trig α) (radius height : α)
    (segments : ℕ) (color origin : Vec3 α) :
    (create_cone T radius height segments color origin).indices.length = 6 * segments := by
  simp only [create_cone, List.length_append, cone_side_indices_length,
    cone_bottom_indices_length]
  omega

lemma create_cone_indices_lt [Field α] (T : Trig α) (radius height : α)
    (segments : ℕ) (color origin : Vec3 α) (hs : 0 < segments) :
    ∀ v ∈ (create_cone T radius height segments color origin).indices,
      v < (create_cone T radius height segments color origin).positions.length := by
  intro v hv
  rw [create_cone_positions_length]
  simp only [create_cone, List.mem_append, cylinder_ring_positions_length] at hv
  rcases hv with hv | hv
  · have := cone_side_indices_lt segments hs v hv
    omega
  · have := cone_bottom_indices_lt segments (1 + segments) hs v hv
    omega

lemma wf_create_cone [Field α] (T : Trig α) (radius height : α)
    (segments : ℕ) (color origin : Vec3 α) (hs : 0 < segments) :
    wfMesh (create_cone T radius height segments color origin) := by
  refine ⟨?_, create_cone_indices_lt T radius height segments color origin hs, ?_, ?_⟩
  · rw [create_cone_indices_length]
    omega
  · rw [create_cone_normals_length, create_cone_positions_length]
  · rw [create_cone_colors_length, create_cone_positions_length]

lemma half_cylinder_core_positions_length [Field α] (T : Trig α) (radius height : α)
    (half : ℕ) (color origin : Vec3 α) (axis : Axis) :
    (half_cylinder_core T radius height half color origin axis).positions.length
      = 2 * (half + 1) := by
  simp only [half_cylinder_core]
  refine (length_flatMap_const 2 ?_).trans ?_
  · intro b hb
    cases axis <;> rfl
  · simp

lemma half_cylinder_core_normals_length [Field α] (T : Trig α) (radius height : α)
    (half : ℕ) (color origin : Vec3 α) (axis : Axis) :
    (half_cylinder_core T radius height half color origin axis).normals.length
      = 2 * (half + 1) := by
  simp only [half_cylinder_core]
  refine (length_flatMap_const 2 ?_).trans ?_
  · intro b hb
    cases axis <;> rfl
  · simp

lemma half_cylinder_core_colors_length [Field α] (T : Trig α) (radius height : α)
    (half : ℕ) (color origin : Vec3 α) (axis : Axis) :
    (half_cylinder_core T radius height half color origin axis).colors.length
      = 2 * (half + 1) := by
  simp only [half_cylinder_core]
  refine (length_flatMap_const 2 ?_).trans ?_
  · intro b hb
    rfl
  · simp

lemma half_cylinder_core_indices_length [Field α] (T : Trig α) (radius height : α)
    (half : ℕ) (color origin : Vec3 α) (axis : Axis) :
    (half_cylinder_core T radius height half color origin axis).indices.length = 6 * half :=
  half_cylinder_strip_indices_length half

lemma wf_half_cylinder_core [Field α] (T : Trig α) (radius height : α)
    (half : ℕ) (color origin : Vec3 α) (axis : Axis) :
    wfMesh (half_cylinder_core T radius height half color origin axis) := by
  refine ⟨?_, ?_, ?_, ?_⟩
  · rw [half_cylinder_core_indices_length]
    omega
  · intro v hv
    rw [half_cylinder_core_positions_length]
    exact half_cylinder_strip_indices_lt half v hv
  · rw [half_cylinder_core_normals_length, half_cylinder_core_positions_length]
  · rw [half_cylinder_core_colors_length, half_cylinder_core_positions_length]

lemma create_torus_positions_length [Field α] (T : Trig α) (outer_r inner_r : α)
    (segments rings : ℕ) (color origin : Vec3 α) :
    (create_torus T outer_r inner_r segments rings color origin).positions.length
      = rings * segments := by
  simp only [create_torus]
  refine (length_flatMap_const segments ?_).trans ?_
  · intro b hb
    simp
  · simp only [List.length_range]
    ring

lemma create_torus_normals_length [Field α] (T : Trig α) (outer_r inner_r : α)
    (segments rings : ℕ) (color origin : Vec3 α) :
    (create_torus T outer_r inner_r segments rings color origin).normals.length
      = rings * segments := by
  simp only [create_torus]
  refine (length_flatMap_const segments ?_).trans ?_
  · intro b hb
    simp
  · simp only [List.length_range]
    ring

lemma create_torus_colors_length [Field α] (T : Trig α) (outer_r inner_r : α)
    (segments rings : ℕ) (color origin : Vec3 α) :
    (create_torus T outer_r inner_r segments rings color origin).colors.length
      = rings * segments := by
  simp only [create_torus]
  refine (length_flatMap_const segments ?_).trans ?_
  · intro b hb
    simp
  · simp only [List.length_range]
    ring

lemma create_torus_indices_length [Field α] (T : Trig α) (outer_r inner_r : α)
    (segments rings : ℕ) (color origin : Vec3 α) :
    (create_torus T outer_r inner_r segments rings color origin).indices.length
      = 6 * (rings * segments) :=
  torus_grid_indices_length segments rings

lemma wf_create_torus [Field α] (T : Trig α) (outer_r inner_r : α)
    (segments rings : ℕ) (color origin : Vec3 α) (hs : 0 < segments) (hr : 0 < rings) :
    wfMesh (create_torus T outer_r inner_r segments rings color origin) := by
  refine ⟨?_, ?_, ?_, ?_⟩
  · rw [create_torus_indices_length]
    omega
  · intro v hv
    rw [create_torus_positions_length]
    exact torus_grid_indices_lt segments rings hs hr v hv
  · rw [create_torus_normals_length, create_torus_positions_length]
  · rw [create_torus_colors_length, create_torus_positions_length]

/-! ### Componentwise min/max helpers for the position accessor bounds -/

lemma foldl_vminOp_x [LinearOrder α] (vs : List (Vec3 α)) (a : Vec3 α) :
    (vs.foldl vminOp a).x = (vs.map Vec3.x).foldl min a.x := by
  induction vs generalizing a with
  | nil => rfl
  | cons v vs ih => simp [List.foldl_cons, ih, vminOp]

lemma foldl_vminOp_y [LinearOrder α] (vs : List (Vec3 α)) (a : Vec3 α) :
    (vs.foldl vminOp a).y = (vs.map Vec3.y).foldl min a.y := by
  induction vs generalizing a with
  | nil => rfl
  | cons v vs ih => simp [List.foldl_cons, ih, vminOp]

lemma foldl_vminOp_z [LinearOrder α] (vs : List (Vec3 α)) (a : Vec3 α) :
    (vs.foldl vminOp a).z = (vs.map Vec3.z).foldl min a.z := by
  induction vs generalizing a with
  | nil => rfl
  | cons v vs ih => simp [List.foldl_cons, ih, vminOp]

lemma foldl_vmaxOp_x [LinearOrder α] (vs : List (Vec3 α)) (a : Vec3 α) :
    (vs.foldl vmaxOp a).x = (vs.map Vec3.x).foldl max a.x := by
  induction vs generalizing a with
  | nil => rfl
  | cons v vs ih => simp [List.foldl_cons, ih, vmaxOp]

lemma foldl_vmaxOp_y [LinearOrder α] (vs : List (Vec3 α)) (a : Vec3 α) :
    (vs.foldl vmaxOp a).y = (vs.map Vec3.y).foldl max a.y := by
  induction vs generalizing a with
  | nil => rfl
  | cons v vs ih => simp [List.foldl_cons, ih, vmaxOp]

lemma foldl_vmaxOp_z [LinearOrder α] (vs : List (Vec3 α)) (a : Vec3 α) :
    (vs.foldl vmaxOp a).z = (vs.map Vec3.z).foldl max a.z := by
  induction vs generalizing a with
  | nil => rfl
  | cons v vs ih => simp [List.foldl_cons, ih, vmaxOp]

lemma foldl_min_le_init {β : Type} [LinearOrder β] (l : List β) (a : β) :
    l.foldl min a ≤ a := by
  induction l generalizing a with
  | nil => simp
  | cons b l ih => exact le_trans (ih (min a b)) (min_le_left a b)

lemma foldl_min_le_mem {β : Type} [LinearOrder β] (l : List β) :
    ∀ a b : β, b ∈ l → l.foldl min a ≤ b := by
  induction l with
  | nil => intro a b hb; cases hb
  | cons c l ih =>
    intro a b hb
    rcases List.mem_cons.1 hb with rfl | hb'
    · exact le_trans (foldl_min_le_init l (min a b)) (min_le_right a b)
    · exact ih (min a c) b hb'

lemma foldl_min_mem {β : Type} [LinearOrder β] (l : List β) :
    ∀ a : β, l.foldl min a = a ∨ l.foldl min a ∈ l := by
  induction l with
  | nil => intro a; left; rfl
  | cons b l ih =>
    intro a
    rcases ih (min a b) with h | h
    · rcases min_choice a b with hm | hm
      · left
        rw [show (b :: l).foldl min a = l.foldl min (min a b) from rfl, h, hm]
      · right
        rw [show (b :: l).foldl min a = l.foldl min (min a b) from rfl, h, hm]
        exact List.mem_cons_self b l
    · right
      exact List.mem_cons_of_mem b h

lemma foldl_max_ge_init {β : Type} [LinearOrder β] (l : List β) (a : β) :
    a ≤ l.foldl max a := by
  induction l generalizing a with
  | nil => simp
  | cons b l ih => exact le_trans (le_max_left a b) (ih (max a b))

lemma foldl_max_ge_mem {β : Type} [LinearOrder β] (l : List β) :
    ∀ a b : β, b ∈ l → b ≤ l.foldl max a := by
  induction l with
  | nil => intro a b hb; cases hb
  | cons c l ih =>
    intro a b hb
    rcases List.mem_cons.1 hb with rfl | hb'
    · exact le_trans (le_max_right a b) (foldl_max_ge_init l (max a b))
    · exact ih (max a c) b hb'

lemma foldl_max_mem {β : Type} [LinearOrder β] (l : List β) :
    ∀ a : β, l.foldl max a = a ∨ l.foldl max a ∈ l := by
  induction l with
  | nil => intro a; left; rfl
  | cons b l ih =>
    intro a
    rcases ih (max a b) with h | h
    · rcases max_choice a b with hm | hm
      · left
        rw [show (b :: l).foldl max a = l.foldl max (max a b) from rfl, h, hm]
      · right
        rw [show (b :: l).foldl max a = l.foldl max (max a b) from rfl, h, hm]
        exact List.mem_cons_self b l
    · right
      exact List.mem_cons_of_mem b h

lemma vecMin_spec [LinearOrder α] (v : Vec3 α) (vs : List (Vec3 α)) :
    (∀ w ∈ v :: vs, (vs.foldl vminOp v).x ≤ w.x ∧ (vs.foldl vminOp v).y ≤ w.y
      ∧ (vs.foldl vminOp v).z ≤ w.z)
    ∧ (∃ a ∈ v :: vs, a.x = (vs.foldl vminOp v).x)
    ∧ (∃ a ∈ v :: vs, a.y = (vs.foldl vminOp v).y)
    ∧ (∃ a ∈ v :: vs, a.z = (vs.foldl vminOp v).z) := by
  refine ⟨?_, ?_, ?_, ?_⟩
  · intro w hw
    rcases List.mem_cons.1 hw with rfl | hw'
    · exact ⟨by rw [foldl_vminOp_x]; exact foldl_min_le_init _ _,
        by rw [foldl_vminOp_y]; exact foldl_min_le_init _ _,
        by rw [foldl_vminOp_z]; exact foldl_min_le_init _ _⟩
    · exact ⟨(by rw [foldl_vminOp_x]; exact foldl_min_le_mem _ _ _ (List.mem_map_of_mem Vec3.x hw')),
        (by rw [foldl_vminOp_y]; exact foldl_min_le_mem _ _ _ (List.mem_map_of_mem Vec3.y hw')),
        (by rw [foldl_vminOp_z]; exact foldl_min_le_mem _ _ _ (List.mem_map_of_mem Vec3.z hw'))⟩
  · rcases foldl_min_mem (vs.map Vec3.x) v.x with h | h
    · exact ⟨v, List.mem_cons_self v vs, by rw [foldl_vminOp_x, h]⟩
    · obtain ⟨a, ha, hax⟩ := List.mem_map.1 h
      exact ⟨a, List.mem_cons_of_mem v ha, by rw [foldl_vminOp_x, ← hax]⟩
  · rcases foldl_min_mem (vs.map Vec3.y) v.y with h | h
    · exact ⟨v, List.mem_cons_self v vs, by rw [foldl_vminOp_y, h]⟩
    · obtain ⟨a, ha, hay⟩ := List.mem_map.1 h
      exact ⟨a, List.mem_cons_of_mem v ha, by rw [foldl_vminOp_y, ← hay]⟩
  · rcases foldl_min_mem (vs.map Vec3.z) v.z with h | h
    · exact ⟨v, List.mem_cons_self v vs, by rw [foldl_vminOp_z, h]⟩
    · obtain ⟨a, ha, haz⟩ := List.mem_map.1 h
      exact ⟨a, List.mem_cons_of_mem v ha, by rw [foldl_vminOp_z, ← haz]⟩

lemma vecMax_spec [LinearOrder α] (v : Vec3 α) (vs : List (Vec3 α)) :
    (∀ w ∈ v :: vs, w.x ≤ (vs.foldl vmaxOp v).x ∧ w.y ≤ (vs.foldl vmaxOp v).y
      ∧ w.z ≤ (vs.foldl vmaxOp v).z)
    ∧ (∃ a ∈ v :: vs, a.x = (vs.foldl vmaxOp v).x)
    ∧ (∃ a ∈ v :: vs, a.y = (vs.foldl vmaxOp v).y)
    ∧ (∃ a ∈ v :: vs, a.z = (vs.foldl vmaxOp v).z) := by
  refine ⟨?_, ?_, ?_, ?_⟩
  · intro w hw
    rcases List.mem_cons.1 hw with rfl | hw'
    · exact ⟨by rw [foldl_vmaxOp_x]; exact foldl_max_ge_init _ _,
        by rw [foldl_vmaxOp_y]; exact foldl_max_ge_init _ _,
        by rw [foldl_vmaxOp_z]; exact foldl_max_ge_init _ _⟩
    · exact ⟨(by rw [foldl_vmaxOp_x]; exact foldl_max_ge_mem _ _ _ (List.mem_map_of_mem Vec3.x hw')),
        (by rw [foldl_vmaxOp_y]; exact foldl_max_ge_mem _ _ _ (List.mem_map_of_mem Vec3.y hw')),
        (by rw [foldl_vmaxOp_z]; exact foldl_max_ge_mem _ _ _ (List.mem_map_of_mem Vec3.z hw'))⟩
  · rcases foldl_max_mem (vs.map Vec3.x) v.x with h | h
    · exact ⟨v, List.mem_cons_self v vs, by rw [foldl_vmaxOp_x, h]⟩
    · obtain ⟨a, ha, hax⟩ := List.mem_map.1 h
      exact ⟨a, List.mem_cons_of_mem v ha, by rw [foldl_vmaxOp_x, ← hax]⟩
  · rcases foldl_max_mem (vs.map Vec3.y) v.y with h | h
    · exact ⟨v, List.mem_cons_self v vs, by rw [foldl_vmaxOp_y, h]⟩
    · obtain ⟨a, ha, hay⟩ := List.mem_map.1 h
      exact ⟨a, List.mem_cons_of_mem v ha, by rw [foldl_vmaxOp_y, ← hay]⟩
  · rcases foldl_max_mem (vs.map Vec3.z) v.z with h | h
    · exact ⟨v, List.mem_cons_self v vs, by rw [foldl_vmaxOp_z, h]⟩
    · obtain ⟨a, ha, haz⟩ := List.mem_map.1 h
      exact ⟨a, List.mem_cons_of_mem v ha, by rw [foldl_vmaxOp_z, ← haz]⟩

/-! ### Claim theorems -/

/-- Claim C1 (amended: restricted to a non-empty input list, since
`np.vstack([])` raises).  For every non-empty ordered list of primitive
outputs, `merge_meshes` succeeds and returns a compound mesh whose vertex
count is the sum of the inputs' vertex counts in call order, whose index
buffer is the concatenation of each input's indices shifted by that input's
starting vertex offset (the running sum of prior inputs' vertex counts),
and — when the inputs are well formed — no triangle's three indices span
two different inputs' offset ranges.  In particular `merge([A, B])` gives
every index contributed by `B` its original value plus
`len(A.positions)`. -/
theorem merge_meshes_spec {α : Type} :
    (∀ ms : List (Mesh α), ms ≠ [] →
      ∃ M, merge_meshes ms = some M
        ∧ M.positions.length = (ms.map fun m => m.positions.length).sum
        ∧ M.indices = ((List.range ms.length).flatMap fun k =>
            (ms.getD k default).indices.map fun j => j + offsetAt ms k)
        ∧ ((∀ m ∈ ms, wfMesh m) → ∀ t, 3 * t + 2 < M.indices.length →
            ∃ k, k < ms.length ∧ ∀ d, d < 3 →
              ∃ v, M.indices[3 * t + d]? = some v ∧
                offsetAt ms k ≤ v ∧
                v < offsetAt ms k + (ms.getD k default).positions.length))
    ∧ (∀ A B : Mesh α, ∃ M, merge_meshes [A, B] = some M
        ∧ M.positions.length = A.positions.length + B.positions.length
        ∧ M.indices = A.indices ++ B.indices.map fun j => j + A.positions.length) := by
  constructor
  · intro ms hne
    have hne' : ms.isEmpty = false := by
      cases ms
      · exact absurd rfl hne
      · rfl
    refine ⟨{ positions := (ms.map Mesh.positions).flatten,
              normals := (ms.map Mesh.normals).flatten,
              colors := (ms.map Mesh.colors).flatten,
              indices := shiftedIndices ms 0 }, ?_, ?_, ?_, ?_⟩
    · simp [merge_meshes, hne']
    · show ((ms.map Mesh.positions).flatten).length = (ms.map fun m => m.positions.length).sum
      rw [List.length_flatten, List.map_map]
      rfl
    · show shiftedIndices ms 0 = _
      rw [shiftedIndices_eq]
      simp only [zero_add]
    · intro hwf t ht
      have ht' : 3 * t + 2 < (shiftedIndices ms 0).length := ht
      obtain ⟨k, hk, hblock⟩ := shiftedIndices_triangle_block ms 0 t
        (fun m hm => ⟨(hwf m hm).1, (hwf m hm).2.1⟩) ht'
      refine ⟨k, hk, fun d hd => ?_⟩
      obtain ⟨v, hv, h1, h2⟩ := hblock d hd
      exact ⟨v, hv, by omega, by omega⟩
  · intro A B
    refine ⟨{ positions := ([A, B].map Mesh.positions).flatten,
              normals := ([A, B].map Mesh.normals).flatten,
              colors := ([A, B].map Mesh.colors).flatten,
              indices := shiftedIndices [A, B] 0 }, rfl, ?_, ?_⟩
    · show (([A, B].map Mesh.positions).flatten).length = _
      simp
    · show shiftedIndices [A, B] 0 = _
      simp [shiftedIndices]

/-- Witness for C1: `merge_meshes_spec` applied to the two concrete meshes
`meshA` (3 vertices, 1 triangle) and `meshB` (2 vertices, 1 triangle). -/
theorem merge_meshes_spec_witness :
    ∃ M : Mesh ℚ, merge_meshes [meshA, meshB] = some M
      ∧ M.positions.length = 5
      ∧ M.indices = [0, 1, 2, 3, 4, 4]
      ∧ ∃ k, k < 2 ∧ ∀ d, d < 3 →
          ∃ v, M.indices[3 * 1 + d]? = some v ∧
            offsetAt [meshA, meshB] k ≤ v ∧
            v < offsetAt [meshA, meshB] k + ([meshA, meshB].getD k default).positions.length := by
  obtain ⟨M, hM, h1, h2, h3⟩ :=
    (@merge_meshes_spec ℚ).1 [meshA, meshB] (by simp)
  have hidx : M.indices = [0, 1, 2, 3, 4, 4] := by
    rw [h2]
    rfl
  refine ⟨M, hM, ?_, hidx, ?_⟩
  · rw [h1]
    rfl
  · exact h3 (by decide) 1 (by simp [hidx])

/-- Counterexample for C1 as stated: on the empty list of primitive outputs
`merge_meshes` does not return any compound mesh (`np.vstack([])`
raises). -/
theorem merge_meshes_nil_no_mesh : ¬ ∃ M : Mesh ℚ, merge_meshes [] = some M := by
  rintro ⟨M, hM⟩
  simp [merge_meshes] at hM

/-- Claim C2: every builder output — box, cylinder (with optional distinct
top radius), cone, half-cylinder (either axis), torus — with positive
dimensions and segment/ring counts at least 3 satisfies the primitive
output invariant (`len(indices) % 3 == 0`, every index `< len(positions)`,
and `len(positions) == len(normals) == len(colors)`), and `merge_meshes`
preserves the invariant. -/
theorem builders_wf {α : Type} [LinearOrderedField α] (T : Trig α)
    (w h d radius height outer_r inner_r : α) (segments rings : ℕ)
    (color origin : Vec3 α) (topRadiusOpt : Option α) (axis : Axis)
    (hw : 0 < w) (hh : 0 < h) (hd : 0 < d) (hr : 0 < radius) (hht : 0 < height)
    (hs : 3 ≤ segments) (hrg : 3 ≤ rings) :
    wfMesh (create_box w h d color origin)
    ∧ wfMesh (create_cylinder T radius height segments color origin topRadiusOpt)
    ∧ wfMesh (create_cone T radius height segments color origin)
    ∧ wfMesh (create_half_cylinder T radius height segments color origin axis)
    ∧ wfMesh (create_torus T outer_r inner_r segments rings color origin)
    ∧ ∀ (ms : List (Mesh α)) (M : Mesh α),
        (∀ m ∈ ms, wfMesh m) → merge_meshes ms = some M → wfMesh M :=
  ⟨wf_create_box w h d color origin,
   wf_create_cylinder T radius height segments color origin topRadiusOpt (by omega),
   wf_create_cone T radius height segments color origin (by omega),
   wf_half_cylinder_core T radius height (segments / 2) color origin axis,
   wf_create_torus T outer_r inner_r segments rings color origin (by omega) (by omega),
   fun ms M hwf hM => merge_wf ms M hwf hM⟩

/-- Witness for C2 at concrete rational parameters. -/
theorem builders_wf_witness :
    wfMesh (create_box (1 : ℚ) 1 1 ⟨1, 1, 1⟩ ⟨0, 0, 0⟩)
    ∧ wfMesh (create_cylinder trigStub 1 1 3 ⟨1, 1, 1⟩ ⟨0, 0, 0⟩ none)
    ∧ wfMesh (create_cone trigStub 1 1 3 ⟨1, 1, 1⟩ ⟨0, 0, 0⟩)
    ∧ wfMesh (create_half_cylinder trigStub 1 1 3 ⟨1, 1, 1⟩ ⟨0, 0, 0⟩ Axis.x)
    ∧ wfMesh (create_torus trigStub 1 1 3 3 ⟨1, 1, 1⟩ ⟨0, 0, 0⟩)
    ∧ ∀ (ms : List (Mesh ℚ)) (M : Mesh ℚ),
        (∀ m ∈ ms, wfMesh m) → merge_meshes ms = some M → wfMesh M :=
  builders_wf trigStub 1 1 1 1 1 1 1 3 3 ⟨1, 1, 1⟩ ⟨0, 0, 0⟩ none Axis.x
    (by norm_num) (by norm_num) (by norm_num) (by norm_num) (by norm_num)
    (by norm_num) (by norm_num)

/-- Claim C3 fails on the code: the cone's apex normal is
`[0, 1/normal_len, 0]`, whose magnitude is `1/normal_len`, not 1.  At
`create_cone(radius=3, height=4, segments=3)` the slope is `3/4`,
`normal_len = np.sqrt(1 + (3/4)^2) = np.sqrt(25/16) = 5/4` exactly, so the
apex normal is `[0, 4/5, 0]` with magnitude `4/5`, off from 1 by far more
than the 1e-5 tolerance (its squared magnitude `16/25` is below
`(1 - 1e-5)^2`). -/
theorem cone_apex_normal_not_unit (T : Trig ℚ) (hsqrt : T.sqrt (25 / 16) = 5 / 4) :
    (create_cone T 3 4 3 ⟨1, 1, 1⟩ ⟨0, 0, 0⟩).normals.head? = some ⟨0, 4 / 5, 0⟩
    ∧ ((0 : ℚ) ^ 2 + (4 / 5) ^ 2 + 0 ^ 2) < (1 - 1 / 100000) ^ 2 := by
  constructor
  · show some (⟨0, 1 / T.sqrt (1 + 3 / 4 * (3 / 4)), 0⟩ : Vec3 ℚ) = some ⟨0, 4 / 5, 0⟩
    rw [show (1 : ℚ) + 3 / 4 * (3 / 4) = 25 / 16 from by norm_num, hsqrt]
    simp only [Option.some.injEq, Vec3.mk.injEq]
    norm_num
  · norm_num

/-- Witness for C3's failing evaluation: `trigConeStub.sqrt` returns the
exact value `5/4` of `np.sqrt(25/16)`. -/
theorem cone_apex_normal_not_unit_witness :
    (create_cone trigConeStub 3 4 3 ⟨1, 1, 1⟩ ⟨0, 0, 0⟩).normals.head? = some ⟨0, 4 / 5, 0⟩
    ∧ ((0 : ℚ) ^ 2 + (4 / 5) ^ 2 + 0 ^ 2) < (1 - 1 / 100000) ^ 2 :=
  cone_apex_normal_not_unit trigConeStub rfl

/-- Counterexample for C4 as stated: on the empty list `merge_meshes` does
not return empty buffers — it fails (models `np.vstack([])` raising
`ValueError`). -/
theorem merge_meshes_nil_not_empty_buffers :
    ¬ ∃ M : Mesh ℚ, merge_meshes [] = some M
      ∧ M.positions = [] ∧ M.normals = [] ∧ M.colors = [] ∧ M.indices = [] := by
  rintro ⟨M, hM, -⟩
  simp [merge_meshes] at hM

/-- Claim C4 (amended): `merge_meshes` fails on the empty list (it raises,
yielding no buffers at all), and succeeds on every non-empty list. -/
theorem merge_meshes_empty_vs_nonempty :
    (∀ α : Type, merge_meshes ([] : List (Mesh α)) = none)
    ∧ ∀ (α : Type) (m : Mesh α) (ms : List (Mesh α)),
        (merge_meshes (m :: ms)).isSome = true := by
  constructor
  · intro α
    rfl
  · intro α m ms
    rfl

/-- Claim C5 fails on the code: `create_half_cylinder` is not the
cylinder's ring construction restricted to π radians.  On `axis='x'` the
emitted positions are `[ox, oy(+h), oz + radius*sin(angle)]` — the
computed cosine is never used — so at `radius=1, height=1, segments=4,
axis='x'` the step-`i=1` vertex (angle `-π/2 + π·1/2 = 0`) lies at the
origin: its squared horizontal distance from the height axis is `0`, not
`radius² = 1`. -/
theorem half_cylinder_vertex_on_axis (T : Trig ℚ) (hsin : T.sin 0 = 0) :
    ∃ v ∈ (create_half_cylinder T 1 1 4 ⟨1, 1, 1⟩ ⟨0, 0, 0⟩ Axis.x).positions,
      v.x ^ 2 + v.z ^ 2 ≠ 1 ^ 2 := by
  have hang : half_angle T 2 1 = 0 := by
    unfold half_angle
    push_cast
    ring
  refine ⟨⟨0, 0, 0 + 1 * T.sin (half_angle T 2 1)⟩, ?_, ?_⟩
  · rw [show create_half_cylinder T 1 1 4 ⟨1, 1, 1⟩ ⟨0, 0, 0⟩ Axis.x
        = half_cylinder_core T 1 1 2 ⟨1, 1, 1⟩ ⟨0, 0, 0⟩ Axis.x from rfl]
    refine List.mem_flatMap.2 ⟨1, by simp, ?_⟩
    exact List.mem_cons_self _ _
  · rw [hang, hsin]
    norm_num

/-- Witness for C5's failing evaluation (`trigStub.sin 0 = 0`). -/
theorem half_cylinder_vertex_on_axis_witness :
    ∃ v ∈ (create_half_cylinder trigStub 1 1 4 ⟨1, 1, 1⟩ ⟨0, 0, 0⟩ Axis.x).positions,
      v.x ^ 2 + v.z ^ 2 ≠ 1 ^ 2 :=
  half_cylinder_vertex_on_axis trigStub rfl

/-- Claim C6: for every `N ≥ 3`, positive radius and height, any color,
origin and optional top radius, `create_cylinder` yields exactly `4N+2`
vertices and `12N` indices. -/
theorem cylinder_counts {α : Type} [LinearOrderedField α] (T : Trig α)
    (radius height : α) (segments : ℕ) (color origin : Vec3 α)
    (topRadiusOpt : Option α)
    (hr : 0 < radius) (hh : 0 < height) (hs : 3 ≤ segments) :
    (create_cylinder T radius height segments color origin topRadiusOpt).positions.length
        = 4 * segments + 2
    ∧ (create_cylinder T radius height segments color origin topRadiusOpt).indices.length
        = 12 * segments :=
  ⟨create_cylinder_positions_length T radius height segments color origin topRadiusOpt,
   create_cylinder_indices_length T radius height segments color origin topRadiusOpt⟩

/-- Witness for C6 at `N = 3`. -/
theorem cylinder_counts_witness :
    (create_cylinder trigStub 1 1 3 ⟨1, 1, 1⟩ ⟨0, 0, 0⟩ none).positions.length = 4 * 3 + 2
    ∧ (create_cylinder trigStub 1 1 3 ⟨1, 1, 1⟩ ⟨0, 0, 0⟩ none).indices.length = 12 * 3 :=
  cylinder_counts trigStub 1 1 3 ⟨1, 1, 1⟩ ⟨0, 0, 0⟩ none
    (by norm_num) (by norm_num) (by norm_num)

/-- Claim C7: the serializer converts positions/normals/colors to 32-bit
floats (12 bytes per vertex row) and indices to 32-bit unsigned integers
(4 bytes each), independently zero-pads each array's byte range to the next
multiple of 4 bytes, concatenates the four padded ranges in the fixed order
positions, normals, colors, indices, and records in each buffer view the
byte offset into the blob (the running sum of the preceding padded lengths)
and the unpadded byte length. -/
theorem glb_layout {α : Type} [LinearOrder α] (encf : α → List ℕ) (m : Mesh α)
    (hlen : ∀ x : α, (encf x).length = 4) :
    (create_glb encf m).blob
        = pad_to_4 (mesh_pos_bytes encf m) ++ pad_to_4 (mesh_norm_bytes encf m)
          ++ pad_to_4 (mesh_color_bytes encf m) ++ pad_to_4 (mesh_index_bytes m)
    ∧ (create_glb encf m).pos_view = ⟨0, (mesh_pos_bytes encf m).length⟩
    ∧ (create_glb encf m).norm_view
        = ⟨(pad_to_4 (mesh_pos_bytes encf m)).length, (mesh_norm_bytes encf m).length⟩
    ∧ (create_glb encf m).color_view
        = ⟨(pad_to_4 (mesh_pos_bytes encf m)).length
            + (pad_to_4 (mesh_norm_bytes encf m)).length,
           (mesh_color_bytes encf m).length⟩
    ∧ (create_glb encf m).index_view
        = ⟨(pad_to_4 (mesh_pos_bytes encf m)).length
            + (pad_to_4 (mesh_norm_bytes encf m)).length
            + (pad_to_4 (mesh_color_bytes encf m)).length,
           (mesh_index_bytes m).length⟩
    ∧ (∀ data : List ℕ, (∃ k, pad_to_4 data = data ++ List.replicate k 0)
        ∧ (pad_to_4 data).length = 4 * ((data.length + 3) / 4))
    ∧ (mesh_pos_bytes encf m).length = 12 * m.positions.length
    ∧ (mesh_norm_bytes encf m).length = 12 * m.normals.length
    ∧ (mesh_color_bytes encf m).length = 12 * m.colors.length
    ∧ (mesh_index_bytes m).length = 4 * m.indices.length := by
  refine ⟨rfl, rfl, rfl, rfl, rfl, ?_, ?_, ?_, ?_, ?_⟩
  · intro data
    refine ⟨⟨(4 - data.length % 4) % 4, rfl⟩, ?_⟩
    unfold pad_to_4
    rw [List.length_append, List.length_replicate]
    omega
  · exact length_flatMap_const 12 fun b hb => by simp [vec3Bytes, hlen]
  · exact length_flatMap_const 12 fun b hb => by simp [vec3Bytes, hlen]
  · exact length_flatMap_const 12 fun b hb => by simp [vec3Bytes, hlen]
  · exact length_flatMap_const 4 fun b hb => rfl

/-- Witness for C7 (`encZero` is a 4-byte-per-scalar encoder). -/
theorem glb_layout_witness :
    (create_glb encZero meshA).blob
        = pad_to_4 (mesh_pos_bytes encZero meshA) ++ pad_to_4 (mesh_norm_bytes encZero meshA)
          ++ pad_to_4 (mesh_color_bytes encZero meshA) ++ pad_to_4 (mesh_index_bytes meshA)
    ∧ (mesh_index_bytes meshA).length = 4 * meshA.indices.length :=
  ⟨(glb_layout encZero meshA fun x => rfl).1,
   (glb_layout encZero meshA fun x => rfl).2.2.2.2.2.2.2.2.2⟩

/-- Claim C8: for every non-empty mesh the position accessor's recorded
min and max are the exact componentwise minimum and maximum over all
positions (each bound is both a componentwise bound and attained in each
component); and serializing the single primitive
`Box(0.28, 0.18, 0.10, color, origin=(0,0,0))` yields 24 vertices, 12
triangles, and the bounding box min `(-0.14, -0.09, -0.05)`,
max `(0.14, 0.09, 0.05)`. -/
theorem glb_pos_minmax :
    (∀ (α : Type) [inst : LinearOrder α] (encf : α → List ℕ) (m : Mesh α),
      m.positions ≠ [] →
      ∃ mn mx, (create_glb encf m).pos_min = some mn
        ∧ (create_glb encf m).pos_max = some mx
        ∧ (∀ v ∈ m.positions, mn.x ≤ v.x ∧ mn.y ≤ v.y ∧ mn.z ≤ v.z
            ∧ v.x ≤ mx.x ∧ v.y ≤ mx.y ∧ v.z ≤ mx.z)
        ∧ (∃ a ∈ m.positions, a.x = mn.x) ∧ (∃ a ∈ m.positions, a.y = mn.y)
        ∧ (∃ a ∈ m.positions, a.z = mn.z)
        ∧ (∃ a ∈ m.positions, a.x = mx.x) ∧ (∃ a ∈ m.positions, a.y = mx.y)
        ∧ (∃ a ∈ m.positions, a.z = mx.z))
    ∧ (∀ (encf : ℚ → List ℕ) (color : Vec3 ℚ),
        (create_glb encf (create_box (28 / 100) (18 / 100) (10 / 100) color
            ⟨0, 0, 0⟩)).pos_count = 24
        ∧ (create_glb encf (create_box (28 / 100) (18 / 100) (10 / 100) color
            ⟨0, 0, 0⟩)).tri_count = 12
        ∧ (create_glb encf (create_box (28 / 100) (18 / 100) (10 / 100) color
            ⟨0, 0, 0⟩)).pos_min = some ⟨-(14 / 100), -(9 / 100), -(5 / 100)⟩
        ∧ (create_glb encf (create_box (28 / 100) (18 / 100) (10 / 100) color
            ⟨0, 0, 0⟩)).pos_max = some ⟨14 / 100, 9 / 100, 5 / 100⟩) := by
  constructor
  · intro α inst encf m hne
    obtain ⟨v, vs, hvvs⟩ : ∃ v vs, m.positions = v :: vs := by
      cases hp : m.positions with
      | nil => exact absurd hp hne
      | cons v vs => exact ⟨v, vs, rfl⟩
    obtain ⟨hminle, hminx, hminy, hminz⟩ := vecMin_spec v vs
    obtain ⟨hmaxle, hmaxx, hmaxy, hmaxz⟩ := vecMax_spec v vs
    refine ⟨vs.foldl vminOp v, vs.foldl vmaxOp v, ?_, ?_, ?_, ?_, ?_, ?_, ?_, ?_, ?_⟩
    · show vecMin m.positions = _
      rw [hvvs]
      rfl
    · show vecMax m.positions = _
      rw [hvvs]
      rfl
    · intro w hw
      rw [hvvs] at hw
      exact ⟨(hminle w hw).1, (hminle w hw).2.1, (hminle w hw).2.2,
        (hmaxle w hw).1, (hmaxle w hw).2.1, (hmaxle w hw).2.2⟩
    · rw [hvvs]; exact hminx
    · rw [hvvs]; exact hminy
    · rw [hvvs]; exact hminz
    · rw [hvvs]; exact hmaxx
    · rw [hvvs]; exact hmaxy
    · rw [hvvs]; exact hmaxz
  · intro encf color
    refine ⟨rfl, ?_, ?_, ?_⟩
    · show (36 : ℕ) / 3 = 12
      norm_num
    · show vecMin (create_box (28 / 100 : ℚ) (18 / 100) (10 / 100) color
          ⟨0, 0, 0⟩).positions = _
      simp only [create_box, vecMin, List.foldl_cons, List.foldl_nil, vminOp,
        Option.some.injEq, Vec3.mk.injEq]
      norm_num
    · show vecMax (create_box (28 / 100 : ℚ) (18 / 100) (10 / 100) color
          ⟨0, 0, 0⟩).positions = _
      simp only [create_box, vecMax, List.foldl_cons, List.foldl_nil, vmaxOp,
        Option.some.injEq, Vec3.mk.injEq]
      norm_num

/-- Witness for C8's general part, applied to the concrete mesh `meshA`. -/
theorem glb_pos_minmax_witness :
    ∃ mn mx, (create_glb encZero meshA).pos_min = some mn
      ∧ (create_glb encZero meshA).pos_max = some mx
      ∧ (∀ v ∈ meshA.positions, mn.x ≤ v.x ∧ mn.y ≤ v.y ∧ mn.z ≤ v.z
          ∧ v.x ≤ mx.x ∧ v.y ≤ mx.y ∧ v.z ≤ mx.z)
      ∧ (∃ a ∈ meshA.positions, a.x = mn.x) ∧ (∃ a ∈ meshA.positions, a.y = mn.y)
      ∧ (∃ a ∈ meshA.positions, a.z = mn.z)
      ∧ (∃ a ∈ meshA.positions, a.x = mx.x) ∧ (∃ a ∈ meshA.positions, a.y = mx.y)
      ∧ (∃ a ∈ meshA.positions, a.z = mx.z) :=
  glb_pos_minmax.1 ℚ encZero meshA (by simp [meshA])

/-- Claim C10: `create_half_cylinder` floors `segments` by integer division
by two, so for `N ≥ 2` it emits exactly `2*(N/2+1)` vertices and `6*(N/2)`
indices, and for even `N` the outputs for `N` and `N+1` coincide
exactly. -/
theorem half_cylinder_counts_parity {α : Type} [Field α] (T : Trig α)
    (radius height : α) (segments : ℕ) (color origin : Vec3 α) (axis : Axis)
    (hs : 2 ≤ segments) :
    (create_half_cylinder T radius height segments color origin axis).positions.length
        = 2 * (segments / 2 + 1)
    ∧ (create_half_cylinder T radius height segments color origin axis).indices.length
        = 6 * (segments / 2)
    ∧ (segments % 2 = 0 →
        create_half_cylinder T radius height segments color origin axis
          = create_half_cylinder T radius height (segments + 1) color origin axis) := by
  refine ⟨half_cylinder_core_positions_length T radius height (segments / 2) color origin axis,
    half_cylinder_core_indices_length T radius height (segments / 2) color origin axis, ?_⟩
  intro hpar
  unfold create_half_cylinder
  rw [show (segments + 1) / 2 = segments / 2 from by omega]

/-- Witness for C10 at the even count `N = 4`. -/
theorem half_cylinder_counts_parity_witness :
    (create_half_cylinder trigStub 1 1 4 ⟨1, 1, 1⟩ ⟨0, 0, 0⟩ Axis.x).positions.length
        = 2 * (4 / 2 + 1)
    ∧ (create_half_cylinder trigStub 1 1 4 ⟨1, 1, 1⟩ ⟨0, 0, 0⟩ Axis.x).indices.length
        = 6 * (4 / 2)
    ∧ (4 % 2 = 0 →
        create_half_cylinder trigStub 1 1 4 ⟨1, 1, 1⟩ ⟨0, 0, 0⟩ Axis.x
          = create_half_cylinder trigStub 1 1 (4 + 1) ⟨1, 1, 1⟩ ⟨0, 0, 0⟩ Axis.x) :=
  half_cylinder_counts_parity trigStub 1 1 4 ⟨1, 1, 1⟩ ⟨0, 0, 0⟩ Axis.x (by norm_num)

end MeshGen
